import Mathlib

/-!
Verification of the TransAI road-recognition pipeline
(`RoadRecognition/models/road_recognition.py`).

The first-party logic of the repository is a per-frame lane-detection
pipeline: a trapezoidal region-of-interest mask, a length-weighted
averaging of Hough line segments into at most two lane lines, a
slope/intercept to pixel-endpoint conversion, and an overlay renderer.
Machine floats of the source are modelled by exact real (or rational)
arithmetic; the Python `None` values flowing through the pipeline are
modelled by `Option`, and runtime faults (iterating over `None`,
division by a zero slope followed by an integer cast) by `Except`.
-/

namespace TransAI

/-- A raw Hough segment `(x1, y1, x2, y2)`, integer pixel endpoints
(as produced by `cv2.HoughLinesP`). -/
structure Seg where
  x1 : ℤ
  y1 : ℤ
  x2 : ℤ
  y2 : ℤ
deriving DecidableEq

/-- Slope of a raw segment: `(y2 - y1) / (x2 - x1)` (source line 109). -/
noncomputable def slope (s : Seg) : ℝ :=
  ((s.y2 : ℝ) - (s.y1 : ℝ)) / ((s.x2 : ℝ) - (s.x1 : ℝ))

/-- Intercept of a raw segment: `y1 - slope * x1` (source line 110). -/
noncomputable def intercept (s : Seg) : ℝ :=
  (s.y1 : ℝ) - slope s * (s.x1 : ℝ)

/-- Euclidean length of a raw segment:
`sqrt((y2 - y1)^2 + (x2 - x1)^2)` (source line 111). -/
noncomputable def length (s : Seg) : ℝ :=
  Real.sqrt (((s.y2 : ℝ) - (s.y1 : ℝ)) ^ 2 + ((s.x2 : ℝ) - (s.x1 : ℝ)) ^ 2)

/-- One iteration of the classification loop of
`__average_slope_intercept` (source lines 106-118): a vertical segment
(`x1 == x2`) is skipped, a negative-slope segment is appended to the
left `(slope, intercept)` and weight lists, any other segment to the
right ones. -/
noncomputable def classifyStep
    (acc : (List (ℝ × ℝ) × List ℝ) × (List (ℝ × ℝ) × List ℝ)) (s : Seg) :
    (List (ℝ × ℝ) × List ℝ) × (List (ℝ × ℝ) × List ℝ) :=
  if s.x1 = s.x2 then acc
  else if slope s < 0 then
    ((acc.1.1 ++ [(slope s, intercept s)], acc.1.2 ++ [length s]), acc.2)
  else
    (acc.1, (acc.2.1 ++ [(slope s, intercept s)], acc.2.2 ++ [length s]))

/-- The full classification loop over the segment list, starting from
four empty lists as in the source. -/
noncomputable def classifySegs (lines : List Seg) :
    (List (ℝ × ℝ) × List ℝ) × (List (ℝ × ℝ) × List ℝ) :=
  lines.foldl classifyStep (([], []), ([], []))

/-- Models `np.dot(weights, lines)` for a weight vector and an n-by-2
matrix of `(slope, intercept)` rows: the pair of weighted sums. -/
noncomputable def dotWeights (ws : List ℝ) (vs : List (ℝ × ℝ)) : ℝ × ℝ :=
  (((ws.zip vs).map fun p => p.1 * p.2.1).sum,
   ((ws.zip vs).map fun p => p.1 * p.2.2).sum)

/-- The lane pair computed by `__average_slope_intercept` on an actual
list of segments (source lines 101-122): each side is
`np.dot(weights, lines) / np.sum(weights)` when its weight list is
nonempty and `None` otherwise. -/
noncomputable def averageList (lines : List Seg) :
    Option (ℝ × ℝ) × Option (ℝ × ℝ) :=
  let c := classifySegs lines
  let left_lines := c.1.1
  let left_weights := c.1.2
  let right_lines := c.2.1
  let right_weights := c.2.2
  (if left_weights.length > 0 then
      some ((dotWeights left_weights left_lines).1 / left_weights.sum,
            (dotWeights left_weights left_lines).2 / left_weights.sum)
    else none,
   if right_weights.length > 0 then
      some ((dotWeights right_weights right_lines).1 / right_weights.sum,
            (dotWeights right_weights right_lines).2 / right_weights.sum)
    else none)

/-- Runtime faults of the pipeline that the source does not guard
against. -/
inductive RunErr where
  | iterNone
  | divByZero
deriving DecidableEq

/-- The `__average_slope_intercept` entry point. Its `lines` argument
is the raw result of `cv2.HoughLinesP`, which is `None` (not an empty
collection) when no segments are detected; the source iterates over it
unconditionally, so the `None` case is a runtime fault. -/
noncomputable def average_slope_intercept :
    Option (List Seg) → Except RunErr (Option (ℝ × ℝ) × Option (ℝ × ℝ))
  | none => .error .iterNone
  | some lines => .ok (averageList lines)

/-- Spec-side left candidate set: non-vertical segments of negative
slope. -/
noncomputable def leftCandidates (lines : List Seg) : List Seg :=
  lines.filter fun s => decide (s.x1 ≠ s.x2 ∧ slope s < 0)

/-- Spec-side right candidate set: non-vertical segments of
nonnegative slope. -/
noncomputable def rightCandidates (lines : List Seg) : List Seg :=
  lines.filter fun s => decide (s.x1 ≠ s.x2 ∧ 0 ≤ slope s)

/-- Spec-side length-weighted mean of a candidate set:
`(Σ length_i * slope_i, Σ length_i * intercept_i) / Σ length_i`,
absent when the set is empty. -/
noncomputable def specLane (cands : List Seg) : Option (ℝ × ℝ) :=
  if cands = [] then none
  else
    some ((cands.map fun s => length s * slope s).sum / (cands.map length).sum,
          (cands.map fun s => length s * intercept s).sum / (cands.map length).sum)

lemma classifySegs_fold (lines : List Seg)
    (acc : (List (ℝ × ℝ) × List ℝ) × (List (ℝ × ℝ) × List ℝ)) :
    lines.foldl classifyStep acc =
      ((acc.1.1 ++ (leftCandidates lines).map (fun s => (slope s, intercept s)),
        acc.1.2 ++ (leftCandidates lines).map length),
       (acc.2.1 ++ (rightCandidates lines).map (fun s => (slope s, intercept s)),
        acc.2.2 ++ (rightCandidates lines).map length)) := by
  induction lines generalizing acc with
  | nil => simp [leftCandidates, rightCandidates]
  | cons s t ih =>
    by_cases hv : s.x1 = s.x2
    · simp [List.foldl_cons, classifyStep, hv, ih, leftCandidates, rightCandidates,
        List.filter_cons]
    · by_cases hs : slope s < 0
      · simp [List.foldl_cons, classifyStep, hv, hs, ih, leftCandidates,
          rightCandidates, List.filter_cons, not_le.mpr hs]
      · simp [List.foldl_cons, classifyStep, hv, hs, ih, leftCandidates,
          rightCandidates, List.filter_cons, not_lt.mp hs]

lemma dotWeights_map (c : List Seg) :
    dotWeights (c.map length) (c.map fun s => (slope s, intercept s)) =
      ((c.map fun s => length s * slope s).sum,
       (c.map fun s => length s * intercept s).sum) := by
  induction c with
  | nil => simp [dotWeights]
  | cons s t ih =>
    simp only [dotWeights, List.map_cons, List.zip_cons_cons, List.sum_cons] at *
    simp [Prod.ext_iff] at ih ⊢
    exact ⟨ih.1, ih.2⟩

lemma averageList_eq_spec (lines : List Seg) :
    averageList lines =
      (specLane (leftCandidates lines), specLane (rightCandidates lines)) := by
  have hfold := classifySegs_fold lines (([], []), ([], []))
  simp only [List.nil_append] at hfold
  unfold averageList classifySegs
  rw [hfold]
  unfold specLane
  by_cases h : (leftCandidates lines) = [] <;>
    by_cases h2 : (rightCandidates lines) = [] <;>
      simp [h, h2, dotWeights_map, List.length_pos]

/-- Truncation toward zero, the behaviour of Python's `int()` on a
float. -/
noncomputable def truncToZero (x : ℝ) : ℤ :=
  if 0 ≤ x then ⌊x⌋ else ⌈x⌉

/-- The `__pixel_points` conversion (source lines 124-140): `None` in,
`None` out; otherwise `x = (y - intercept) / slope` at the two fixed
y-values, each coordinate truncated to an integer by `int()`. A zero
slope makes the division produce an infinity or NaN whose `int()` cast
raises, modelled as the `divByZero` fault; the source has no guard for
it. -/
noncomputable def pixel_points (y1 y2 : ℝ) :
    Option (ℝ × ℝ) → Except RunErr (Option ((ℤ × ℤ) × (ℤ × ℤ)))
  | none => .ok none
  | some (s, b) =>
    if s = 0 then .error .divByZero
    else
      .ok (some ((truncToZero ((y1 - b) / s), truncToZero y1),
                 (truncToZero ((y2 - b) / s), truncToZero y2)))

/-- The `__lane_lines` function (source lines 79-92): average the
segments, then convert each side at `y1 = image.shape[0]` (the image
height) and `y2 = y1 * 0.6`. -/
noncomputable def lane_lines (H : ℕ) (lines : Option (List Seg)) :
    Except RunErr (Option ((ℤ × ℤ) × (ℤ × ℤ)) × Option ((ℤ × ℤ) × (ℤ × ℤ))) := do
  let lanes ← average_slope_intercept lines
  let y1 : ℝ := (H : ℝ)
  let y2 : ℝ := y1 * 0.6
  let left_line ← pixel_points y1 y2 lanes.1
  let right_line ← pixel_points y1 y2 lanes.2
  return (left_line, right_line)

/-- C1: the Lane Averager partitions the non-vertical segments into
left candidates (slope < 0) and right candidates (slope >= 0), and for
each side returns the length-weighted mean of `(slope, intercept)`,
weighted by Euclidean segment length: the code's result equals
`(Σ length_i * (slope_i, intercept_i)) / Σ length_i` on each
candidate set (absent when the set is empty). -/
theorem average_slope_intercept_spec (lines : List Seg) :
    average_slope_intercept (some lines) =
      .ok (specLane (leftCandidates lines), specLane (rightCandidates lines)) := by
  simp [average_slope_intercept, averageList_eq_spec]

lemma bindOk {ε α β : Type} (a : α) (f : α → Except ε β) :
    (Except.ok a >>= f) = f a := rfl

lemma sqrt_hundred : Real.sqrt 100 = 10 := by
  rw [show (100 : ℝ) = 10 ^ 2 by norm_num]
  exact Real.sqrt_sq (by norm_num)

/-- C2: a horizontal raw segment (slope exactly 0, here
`(0,5)-(10,5)`) is classified into the right candidate set, giving the
right Lane Model `(0, 5)`, and the subsequent pixel-endpoint
conversion `x = (y - intercept) / slope` divides by the zero slope:
the pipeline hits the unguarded division-by-zero fault. -/
theorem zero_slope_divides :
    average_slope_intercept (some [⟨0, 5, 10, 5⟩]) = .ok (none, some (0, 5)) ∧
    lane_lines 100 (some [⟨0, 5, 10, 5⟩]) = .error .divByZero := by
  have havg : average_slope_intercept (some [⟨0, 5, 10, 5⟩]) =
      .ok (none, some (0, 5)) := by
    simp [average_slope_intercept, averageList, classifySegs, classifyStep,
      slope, intercept, length, dotWeights, sqrt_hundred]
  refine ⟨havg, ?_⟩
  rw [lane_lines, havg]
  simp [bindOk, pixel_points]

/-- C3: a vertical raw segment (`x1 == x2`) contributes to neither
side, and the Lane Averager's output on a segment list containing it
equals its output on the list with it removed. -/
theorem vertical_segment_invariant (l1 l2 : List Seg) (v : Seg) (h : v.x1 = v.x2) :
    average_slope_intercept (some (l1 ++ v :: l2)) =
      average_slope_intercept (some (l1 ++ l2)) := by
  have hstep : ∀ acc, classifyStep acc v = acc := fun acc => by
    simp [classifyStep, h]
  simp [average_slope_intercept, averageList, classifySegs, List.foldl_append,
    hstep]

theorem vertical_segment_invariant_witness :
    (⟨3, 0, 3, 9⟩ : Seg).x1 = (⟨3, 0, 3, 9⟩ : Seg).x2 ∧
    average_slope_intercept (some ([] ++ (⟨3, 0, 3, 9⟩ : Seg) :: [])) =
      average_slope_intercept (some ([] ++ ([] : List Seg))) :=
  ⟨rfl, vertical_segment_invariant [] [] ⟨3, 0, 3, 9⟩ rfl⟩

/-- C4: a side with zero candidate segments gets an absent (`None`)
Lane Model, not zero and not an error, and the pixel-endpoint
conversion of an absent Lane Model yields no Lane Segment (`None`,
without a fault). -/
theorem empty_side_absent (lines : List Seg) (y1 y2 : ℝ) (l r : Option (ℝ × ℝ))
    (havg : average_slope_intercept (some lines) = .ok (l, r)) :
    (leftCandidates lines = [] → l = none ∧ pixel_points y1 y2 l = .ok none) ∧
    (rightCandidates lines = [] → r = none ∧ pixel_points y1 y2 r = .ok none) := by
  rw [average_slope_intercept, averageList_eq_spec] at havg
  have hl : l = specLane (leftCandidates lines) := by
    cases havg
    rfl
  have hr : r = specLane (rightCandidates lines) := by
    cases havg
    rfl
  constructor
  · intro he
    have : l = none := by rw [hl, specLane, if_pos he]
    exact ⟨this, by rw [this]; rfl⟩
  · intro he
    have : r = none := by rw [hr, specLane, if_pos he]
    exact ⟨this, by rw [this]; rfl⟩

theorem empty_side_absent_witness :
    average_slope_intercept (some ([] : List Seg)) = .ok (none, none) ∧
    ((leftCandidates ([] : List Seg) = [] →
        (none : Option (ℝ × ℝ)) = none ∧
        pixel_points 100 60 (none : Option (ℝ × ℝ)) = .ok none) ∧
     (rightCandidates ([] : List Seg) = [] →
        (none : Option (ℝ × ℝ)) = none ∧
        pixel_points 100 60 (none : Option (ℝ × ℝ)) = .ok none)) := by
  have h : average_slope_intercept (some ([] : List Seg)) = .ok (none, none) := by
    simp [average_slope_intercept, averageList, classifySegs]
  exact ⟨h, empty_side_absent [] 100 60 none none h⟩

/-- C5: a defined Lane Model of nonzero slope is converted by
evaluating `x = (y - intercept) / slope` at `y_near = H` (the image
height) and `y_far = 0.6 * H`, truncating each coordinate toward zero;
and `lane_lines` applies exactly this conversion at those two
y-values to both sides of the averager's output. -/
theorem pixel_points_formula (H : ℕ) (s b : ℝ) (hs : s ≠ 0)
    (lines : Option (List Seg)) :
    pixel_points (H : ℝ) ((H : ℝ) * 0.6) (some (s, b)) =
      .ok (some ((truncToZero (((H : ℝ) - b) / s), truncToZero (H : ℝ)),
                 (truncToZero (((H : ℝ) * 0.6 - b) / s),
                  truncToZero ((H : ℝ) * 0.6)))) ∧
    (∀ l r : Option (ℝ × ℝ), average_slope_intercept lines = .ok (l, r) →
      lane_lines H lines = do
        let left_line ← pixel_points (H : ℝ) ((H : ℝ) * 0.6) l
        let right_line ← pixel_points (H : ℝ) ((H : ℝ) * 0.6) r
        return (left_line, right_line)) := by
  constructor
  · rw [pixel_points, if_neg hs]
  · intro l r havg
    rw [lane_lines, havg]
    rfl

theorem pixel_points_formula_witness :
    ((-2 : ℝ) ≠ 0) ∧
    pixel_points (100 : ℝ) (60 : ℝ) (some ((-2 : ℝ), (300 : ℝ))) =
      .ok (some ((100, 100), (120, 60))) := by
  refine ⟨by norm_num, ?_⟩
  have h := (pixel_points_formula 100 (-2) 300 (by norm_num) (some [])).1
  norm_num at h
  have t100 : truncToZero (100 : ℝ) = 100 := by
    rw [truncToZero, if_pos (by norm_num)]
    rw [show (100 : ℝ) = ((100 : ℤ) : ℝ) by norm_num, Int.floor_intCast]
  have t120 : truncToZero (120 : ℝ) = 120 := by
    rw [truncToZero, if_pos (by norm_num)]
    rw [show (120 : ℝ) = ((120 : ℤ) : ℝ) by norm_num, Int.floor_intCast]
  have t60 : truncToZero (60 : ℝ) = 60 := by
    rw [truncToZero, if_pos (by norm_num)]
    rw [show (60 : ℝ) = ((60 : ℤ) : ℝ) by norm_num, Int.floor_intCast]
  rw [t100, t120, t60] at h
  exact h

/-- C9: when the Hough transform reports no segments, its result is
the absent value `None` rather than an empty collection, and the Lane
Averager iterates over it and faults instead of returning two absent
Lane Models; on any actual segment list (empty included) it succeeds,
so only the `None` interface case is non-total. -/
theorem averager_none_not_total :
    average_slope_intercept none = .error .iterNone ∧
    average_slope_intercept none ≠ .ok (none, none) ∧
    ∀ lines : List Seg, ∃ p, average_slope_intercept (some lines) = .ok p := by
  refine ⟨rfl, by simp [average_slope_intercept], ?_⟩
  intro lines
  exact ⟨averageList lines, rfl⟩

/-- A raster image: height `rows`, width `cols`, `channels = some c`
for a 3-D array with `c` channels and `none` for a 2-D single-channel
array, and the pixel value at `(row, col, channel)` (the channel index
is ignored for 2-D arrays). -/
structure Img where
  rows : ℕ
  cols : ℕ
  channels : Option ℕ
  px : ℕ → ℕ → ℕ → ℕ

/-- Models `np.zeros_like`: same shape, all pixels zero. -/
def zeros_like (img : Img) : Img :=
  ⟨img.rows, img.cols, img.channels, fun _ _ _ => 0⟩

/-- The fill colour handed to `cv2.fillPoly`: a scalar for a 2-D
input, a tuple with one entry per channel for a 3-D input. -/
inductive MaskColor where
  | scalar (v : ℕ)
  | channelTuple (vs : List ℕ)

/-- The `ignore_mask_color` computed by `__region_selection` (source
lines 48-53): `(255,) * channel_count` for a multi-channel image,
the scalar `255` otherwise. -/
def ignore_mask_color (img : Img) : MaskColor :=
  match img.channels with
  | some c => .channelTuple (List.replicate c 255)
  | none => .scalar 255

/-- The fill value a `MaskColor` gives to channel `k`. -/
def MaskColor.colorAt : MaskColor → ℕ → ℕ
  | .scalar v, _ => v
  | .channelTuple vs, k => vs.getD k 0

/-- Two-dimensional cross product. -/
def cross2 (a b : ℤ × ℤ) : ℤ := a.1 * b.2 - a.2 * b.1

/-- Whether point `p` lies on the inner side of the directed edge from
`a` to `b` (cross product nonnegative). -/
def edgeNonneg (a b p : ℤ × ℤ) : Bool :=
  decide (0 ≤ cross2 (b.1 - a.1, b.2 - a.2) (p.1 - a.1, p.2 - a.2))

/-- Whether point `p` lies inside the convex quadrilateral
`v0 v1 v2 v3` (on the inner side of all four directed edges). -/
def insideQuad (v0 v1 v2 v3 p : ℤ × ℤ) : Bool :=
  edgeNonneg v0 v1 p && edgeNonneg v1 v2 p && edgeNonneg v2 v3 p && edgeNonneg v3 v0 p

/-- The region-of-interest vertices of `__region_selection` (source
lines 54-59), in the order bottom-left, top-left, top-right,
bottom-right: `(0.1W, 0.95H), (0.4W, 0.6H), (0.6W, 0.6H),
(0.9W, 0.95H)`, each fractional coordinate cast to `int32` by
`np.array(..., dtype=np.int32)`. Truncation of these nonnegative
exact rationals is floor, written here as natural division:
`0.1W = W/10`, `0.95H = 19H/20`, `0.4W = 2W/5`, `0.6H = 3H/5`,
`0.9W = 9W/10`. -/
def roiVertices (rows cols : ℕ) : (ℤ × ℤ) × (ℤ × ℤ) × (ℤ × ℤ) × (ℤ × ℤ) :=
  (((cols / 10 : ℕ), (rows * 19 / 20 : ℕ)),
   ((cols * 2 / 5 : ℕ), (rows * 3 / 5 : ℕ)),
   ((cols * 3 / 5 : ℕ), (rows * 3 / 5 : ℕ)),
   ((cols * 9 / 10 : ℕ), (rows * 19 / 20 : ℕ)))

/-- Modelled external primitive: `cv2.fillPoly` on a single convex
quadrilateral paints every pixel inside the convex region bounded by
the four directed edges (boundary included) with the given colour,
channel by channel, leaving the rest of the buffer unchanged. -/
def fillPolyQuad (img : Img) (v0 v1 v2 v3 : ℤ × ℤ) (mc : MaskColor) : Img :=
  ⟨img.rows, img.cols, img.channels,
   fun r c k =>
     if insideQuad v0 v1 v2 v3 ((c : ℤ), (r : ℤ)) then mc.colorAt k
     else img.px r c k⟩

/-- Models `cv2.bitwise_and` of two same-shape images: pixelwise
bitwise AND. -/
def bitwise_and (a b : Img) : Img :=
  ⟨a.rows, a.cols, a.channels, fun r c k => a.px r c k &&& b.px r c k⟩

/-- The `__region_selection` function (source lines 40-62): build a
zero mask of the input's shape, fill the trapezoid with
`ignore_mask_color`, and AND the mask with the input. -/
def region_selection (img : Img) : Img :=
  let v := roiVertices img.rows img.cols
  let mask := fillPolyQuad (zeros_like img) v.1 v.2.1 v.2.2.1 v.2.2.2
    (ignore_mask_color img)
  bitwise_and img mask

lemma colorAt_ignore (img : Img) (k : ℕ) (hk : k < img.channels.getD 1) :
    (ignore_mask_color img).colorAt k = 255 := by
  unfold ignore_mask_color
  cases h : img.channels with
  | none => rfl
  | some c =>
    rw [h] at hk
    simp only [Option.getD_some] at hk
    simp only [MaskColor.colorAt]
    rw [List.getD_eq_getElem _ _ (by simpa using hk)]
    simp

lemma and_255_of_lt (v : ℕ) (h : v < 256) : v &&& 255 = v := by
  have h255 : (255 : ℕ) = 2 ^ 8 - 1 := rfl
  rw [h255]
  exact Nat.and_pow_two_sub_one_of_lt_two_pow (by simpa using h)

/-- C6: the Region Selector keeps the input's shape and channel count
(the mask is `zeros_like` of the input, and the fill colour is one 255
per channel of the input), retains every pixel inside the trapezoid
with vertices `(0.1W, 0.95H), (0.4W, 0.6H), (0.6W, 0.6H),
(0.9W, 0.95H)` (coordinates cast to `int32`), and zeroes every pixel
outside it, for 2-D and 3-D inputs alike. -/
theorem region_selection_spec (img : Img) :
    (region_selection img).rows = img.rows ∧
    (region_selection img).cols = img.cols ∧
    (region_selection img).channels = img.channels ∧
    ∀ r c k, img.px r c k < 256 → k < img.channels.getD 1 →
      (region_selection img).px r c k =
        if insideQuad (roiVertices img.rows img.cols).1
            (roiVertices img.rows img.cols).2.1
            (roiVertices img.rows img.cols).2.2.1
            (roiVertices img.rows img.cols).2.2.2 ((c : ℤ), (r : ℤ))
        then img.px r c k else 0 := by
  refine ⟨rfl, rfl, rfl, ?_⟩
  intro r c k hv hk
  show img.px r c k &&&
      (if insideQuad _ _ _ _ ((c : ℤ), (r : ℤ))
       then (ignore_mask_color img).colorAt k else 0) = _
  by_cases hin : insideQuad (roiVertices img.rows img.cols).1
      (roiVertices img.rows img.cols).2.1 (roiVertices img.rows img.cols).2.2.1
      (roiVertices img.rows img.cols).2.2.2 ((c : ℤ), (r : ℤ))
  · rw [if_pos hin, if_pos hin, colorAt_ignore img k hk, and_255_of_lt _ hv]
  · rw [if_neg hin, if_neg hin, Nat.and_zero]

theorem region_selection_spec_witness :
    ((⟨100, 100, none, fun _ _ _ => 255⟩ : Img).px 90 50 0 < 256 ∧
      0 < (⟨100, 100, none, fun _ _ _ => 255⟩ : Img).channels.getD 1) ∧
    (region_selection ⟨100, 100, none, fun _ _ _ => 255⟩).px 90 50 0 = 255 ∧
    (region_selection ⟨100, 100, none, fun _ _ _ => 255⟩).px 5 5 0 = 0 := by
  refine ⟨⟨by decide, by decide⟩, ?_, ?_⟩
  · have h := (region_selection_spec ⟨100, 100, none, fun _ _ _ => 255⟩).2.2.2
      90 50 0 (by decide) (by decide)
    rw [h, if_pos (by decide)]
  · have h := (region_selection_spec ⟨100, 100, none, fun _ _ _ => 255⟩).2.2.2
      5 5 0 (by decide) (by decide)
    rw [h, if_neg (by decide)]

/-- Saturating cast to an 8-bit pixel value, the behaviour of
`cv2.addWeighted` on a `uint8` destination: clamp to `[0, 255]`,
rounding to the nearest integer in between. -/
def satCast (q : ℚ) : ℕ :=
  if q ≤ 0 then 0 else if 255 ≤ q then 255 else (round q).toNat

/-- Models `cv2.addWeighted(a, alpha, b, beta, gamma)`: the
per-channel saturated value of `alpha * a + beta * b + gamma`. -/
def addWeighted (a : Img) (alpha : ℚ) (b : Img) (beta : ℚ) (gamma : ℚ) : Img :=
  ⟨a.rows, a.cols, a.channels,
   fun r c k => satCast (alpha * (a.px r c k : ℚ) + beta * (b.px r c k : ℚ) + gamma)⟩

/-- The `__draw_lane_lines` function (source lines 142-158),
parametrised by the external `cv2.line` primitive (an arbitrary
function painting one segment with a colour and thickness onto a
buffer): the default colour is `[255, 0, 0]`, the overlay starts as
`np.zeros_like(image)`, each non-`None` line is drawn onto it, `None`
lines are skipped, and the overlay is blended by
`cv2.addWeighted(image, 1.0, line_image, 1.0, 0.0)`. -/
def draw_lane_lines (cvLine : Img → (ℤ × ℤ) × (ℤ × ℤ) → List ℕ → ℕ → Img)
    (image : Img) (lines : List (Option ((ℤ × ℤ) × (ℤ × ℤ))))
    (color : Option (List ℕ)) (thickness : ℕ) : Img :=
  let col := color.getD [255, 0, 0]
  let line_image := lines.foldl
    (fun buf l =>
      match l with
      | none => buf
      | some s => cvLine buf s col thickness)
    (zeros_like image)
  addWeighted image 1 line_image 1 0

lemma satCast_of_lt (v : ℕ) (h : v < 256) : satCast (v : ℚ) = v := by
  unfold satCast
  by_cases h0 : (v : ℚ) ≤ 0
  · have hv0 : v = 0 := by exact_mod_cast le_antisymm h0 (by positivity)
    rw [if_pos h0, hv0]
  · rw [if_neg h0]
    by_cases h255 : (255 : ℚ) ≤ (v : ℚ)
    · have hv : v = 255 := le_antisymm (by omega) (by exact_mod_cast h255)
      rw [if_pos h255, hv]
    · rw [if_neg h255, round_natCast, Int.toNat_natCast]

/-- C7: the Line Renderer draws each present segment onto a
zero-initialised overlay of the frame's shape with the default colour
`[255, 0, 0]` (red per the source docstring) and thickness 12, blends
overlay onto frame by `addWeighted` with weights `1.0 / 1.0 / 0.0`,
and silently skips absent (`None`) segments: with both segments
absent nothing is drawn and every in-range pixel of the frame is
unchanged. -/
theorem draw_lane_lines_spec (cvLine : Img → (ℤ × ℤ) × (ℤ × ℤ) → List ℕ → ℕ → Img)
    (img : Img) (s1 s2 : (ℤ × ℤ) × (ℤ × ℤ))
    (hpx : ∀ r c k, img.px r c k < 256) :
    draw_lane_lines cvLine img [some s1, some s2] none 12 =
      addWeighted img 1
        (cvLine (cvLine (zeros_like img) s1 [255, 0, 0] 12) s2 [255, 0, 0] 12) 1 0 ∧
    draw_lane_lines cvLine img [some s1, none] none 12 =
      addWeighted img 1 (cvLine (zeros_like img) s1 [255, 0, 0] 12) 1 0 ∧
    draw_lane_lines cvLine img [none, some s2] none 12 =
      addWeighted img 1 (cvLine (zeros_like img) s2 [255, 0, 0] 12) 1 0 ∧
    (zeros_like img).rows = img.rows ∧ (zeros_like img).cols = img.cols ∧
    (zeros_like img).channels = img.channels ∧
    (∀ r c k, (draw_lane_lines cvLine img [none, none] none 12).px r c k =
      img.px r c k) := by
  refine ⟨rfl, rfl, rfl, rfl, rfl, rfl, ?_⟩
  intro r c k
  show satCast (1 * (img.px r c k : ℚ) + 1 * ((0 : ℕ) : ℚ) + 0) = img.px r c k
  rw [show (1 * (img.px r c k : ℚ) + 1 * ((0 : ℕ) : ℚ) + 0) = (img.px r c k : ℚ)
    by push_cast; ring]
  exact satCast_of_lt _ (hpx r c k)

theorem draw_lane_lines_spec_witness :
    (∀ r c k, (⟨2, 2, none, fun _ _ _ => 17⟩ : Img).px r c k < 256) ∧
    (draw_lane_lines (fun buf _ _ _ => buf) ⟨2, 2, none, fun _ _ _ => 17⟩
      [none, none] none 12).px 0 0 0 = 17 := by
  have hpx : ∀ r c k, (⟨2, 2, none, fun _ _ _ => 17⟩ : Img).px r c k < 256 := by
    intro r c k
    show (17 : ℕ) < 256
    decide
  exact ⟨hpx, (draw_lane_lines_spec (fun buf _ _ _ => buf)
    ⟨2, 2, none, fun _ _ _ => 17⟩ ((0, 0), (1, 1)) ((0, 0), (1, 1)) hpx).2.2.2.2.2.2 0 0 0⟩

/-- Camera-side events the capture guard can perform. -/
inductive CapEvent where
  | openDevice (i : ℤ)
  | readFrame
deriving DecidableEq

/-- Modelled from the spec: the `Capture` wrapper class (imported from
`RoadRecognition/models/models.py`, which is not present under
`src/`) opens a camera device by integer index, and `isOpened`
reports whether the device opened; the external device behaviour is
the parameter `opens`. -/
structure Capture where
  index : ℤ
  opened : Bool
deriving DecidableEq

/-- Construction of a `Capture` on a device index: records the index
and whether the device opened. -/
def Capture.open (opens : ℤ → Bool) (i : ℤ) : Capture := ⟨i, opens i⟩

/-- The `isOpened` query of a capture handle. -/
def Capture.isOpened (c : Capture) : Bool := c.opened

/-- The one domain error of the system. -/
inductive CamErr where
  | cameraNotFound
deriving DecidableEq

/-- The `prepare_capture` method (source lines 20-25): construct the
capture, raise `CameraNotFoundException` when `isOpened` is false,
return the opened handle otherwise. Alongside the result it records
the camera-side events performed, so that the absence of any frame
read is visible. -/
def prepare_capture (opens : ℤ → Bool) (camera_index : ℤ) :
    Except CamErr Capture × List CapEvent :=
  let camera_capture := Capture.open opens camera_index
  (if camera_capture.isOpened then .ok camera_capture
   else .error .cameraNotFound,
   [CapEvent.openDevice camera_index])

/-- C8: `prepare_capture` raises `CameraNotFound` exactly when the
device fails to open, returns the opened handle when it opens, and
performs no frame read either way (its event trace is the single
device-open event). -/
theorem prepare_capture_spec (opens : ℤ → Bool) (i : ℤ) :
    ((prepare_capture opens i).1 = .error .cameraNotFound ↔ opens i = false) ∧
    (opens i = true → (prepare_capture opens i).1 = .ok (Capture.open opens i)) ∧
    CapEvent.readFrame ∉ (prepare_capture opens i).2 := by
  unfold prepare_capture Capture.open Capture.isOpened
  cases h : opens i <;> simp [h]

theorem prepare_capture_spec_witness :
    (prepare_capture (fun _ => false) 7).1 = .error .cameraNotFound ∧
    (prepare_capture (fun _ => true) 7).1 = .ok (Capture.open (fun _ => true) 7) ∧
    CapEvent.readFrame ∉ (prepare_capture (fun _ => false) 7).2 :=
  ⟨(prepare_capture_spec (fun _ => false) 7).1.mpr rfl,
   (prepare_capture_spec (fun _ => true) 7).2.1 rfl,
   (prepare_capture_spec (fun _ => false) 7).2.2⟩

/-- The public `recognite` method (source lines 10-12): it returns
its argument. -/
def recognite (frame : Img) : Img := frame

/-- C10: `recognite` is the identity on frames: it returns the input
frame unchanged, so it never applies the lane-detection pipeline (its
body is a bare `return frame`). -/
theorem recognite_id (frame : Img) : recognite frame = frame := rfl

end TransAI
